import Mathlib

/-!
Shallow embedding of the in-memory paginated query engine of the repository's
`PostService` (src/project_demo/demo-01/src/post/post.service.ts), its DTO
validation layer (src/project_demo/demo-01/src/post/dto/query-post.dto.ts,
enforced by the globally registered validation pipe in main.ts), and the
response DTO constructor (`PostPageResponseDto`).

Conventions of the embedding:
* JavaScript numbers that are used integrally (ids, counts, page numbers,
  status codes) are `Int`.
* `Date` values are their millisecond timestamps, `Int`; the current time is
  passed explicitly to the operations that read the clock.
* `undefined` optional DTO fields are `Option.none`.
* `Array.prototype.sort` (stable since ES2019) with a consistent comparator is
  modelled by a structurally recursive stable insertion sort; for a comparator
  that induces a total preorder the stable-sorted result is unique, so this is
  observationally the sorted array the source produces.
* Thrown exceptions (`BadRequestException` from validation, i.e. the spec's
  `InvalidQuery`, and `NotFoundException`, i.e. `NotFound`) are `Except` errors.
-/

namespace NestDemo

/-- The `Post` entity (src/project_demo/demo-01/src/post/entities/post.entity.ts). -/
structure Post where
  id : Int
  title : String
  content : String
  summary : String
  authorId : Int
  categoryId : Int
  tags : String
  status : Int
  viewCount : Int
  likeCount : Int
  coverImage : String
  isTop : Bool
  createdAt : Int
  updatedAt : Int
  publishedAt : Option Int
deriving DecidableEq, Repr

/-- The `QueryPostDto` structure (query-post.dto.ts), as the decoded, well-typed query object.
An absent optional field is `none`; defaults are substituted at the
destructuring in `findAll`, as in the source. -/
structure QueryPostDto where
  page : Option Int
  pageSize : Option Int
  keyword : Option String
  categoryId : Option Int
  authorId : Option Int
  status : Option Int
  sortBy : Option String
  sortOrder : Option String
  isTop : Option Bool
deriving DecidableEq, Repr

/-- The all-absent query (every optional query parameter omitted). -/
def emptyQuery : QueryPostDto :=
  { page := none, pageSize := none, keyword := none, categoryId := none,
    authorId := none, status := none, sortBy := none, sortOrder := none,
    isTop := none }

/-- The sortable-field enumeration `PostSortField` of query-post.dto.ts. -/
def validSortFields : List String := ["createdAt", "updatedAt", "viewCount", "likeCount"]

/-- The `class-validator` constraints declared on `QueryPostDto`
(query-post.dto.ts), as enforced before `findAll` runs by the global
`ValidationPipe` of main.ts.  Type constraints (`IsInt`, `IsString`,
`IsBoolean`) hold by typing in this embedding; the value constraints are:
`page` min 1; `pageSize` min 1, max 100; `status` min 0, max 2;
`sortBy` in `PostSortField`; `sortOrder` in `{ASC, DESC}`.
Each constraint is skipped when the field is absent (`IsOptional`). -/
def validateQueryPostDto (q : QueryPostDto) : Bool :=
  (match q.page with
   | none => true
   | some p => 1 ≤ p) &&
  (match q.pageSize with
   | none => true
   | some s => 1 ≤ s && s ≤ 100) &&
  (match q.status with
   | none => true
   | some st => 0 ≤ st && st ≤ 2) &&
  (match q.sortBy with
   | none => true
   | some f => validSortFields.contains f) &&
  (match q.sortOrder with
   | none => true
   | some o => o == "ASC" || o == "DESC")

/-- JavaScript `String.prototype.includes` on the underlying character lists:
`needle` occurs contiguously in `hay`. -/
def listIncludes : List Char → List Char → Bool
  | _, [] => true
  | [], _ :: _ => false
  | h :: t, needle => needle.isPrefixOf (h :: t) || listIncludes t needle

/-- JavaScript `s.includes(sub)` on strings. -/
def strIncludes (s sub : String) : Bool := listIncludes s.data sub.data

/-- Errors thrown by the service layer: `invalidQuery` is the
`BadRequestException` produced by the validation pipe, `notFound` the
`NotFoundException` of `findOne`. -/
inductive ServiceError where
  | invalidQuery
  | notFound
deriving DecidableEq, Repr

/-- The filter stage of `PostService.findAll` (post.service.ts lines 63-95):
the sequence of conditional `Array.prototype.filter` passes over a spread copy
of `this.posts`.  The keyword pass runs under JavaScript truthiness
(`if (keyword)`), so a supplied empty keyword is skipped. -/
def filterStage (posts : List Post) (q : QueryPostDto) : List Post :=
  let l := posts
  let l := match q.keyword with
    | some k => if k = "" then l else l.filter (fun p => strIncludes p.title k)
    | none => l
  let l := match q.categoryId with
    | some c => l.filter (fun p => p.categoryId == c)
    | none => l
  let l := match q.authorId with
    | some a => l.filter (fun p => p.authorId == a)
    | none => l
  let l := match q.status with
    | some s => l.filter (fun p => p.status == s)
    | none => l
  let l := match q.isTop with
    | some t => l.filter (fun p => p.isTop == t)
    | none => l
  l

/-- The value `a[sortBy]` for the four sortable fields.  `findAll` only ever evaluates
this on a `sortBy` that passed the `PostSortField` enum validation. -/
def sortValue (sortBy : String) (p : Post) : Int :=
  if sortBy == "createdAt" then p.createdAt
  else if sortBy == "updatedAt" then p.updatedAt
  else if sortBy == "viewCount" then p.viewCount
  else p.likeCount

/-- The comparator passed to `sort` in `findAll` (post.service.ts lines 98-107). -/
def postCmp (sortBy sortOrder : String) (a b : Post) : Int :=
  let aValue := sortValue sortBy a
  let bValue := sortValue sortBy b
  if sortOrder == "ASC" then
    if aValue > bValue then 1 else if aValue < bValue then -1 else 0
  else
    if aValue < bValue then 1 else if aValue > bValue then -1 else 0

/-- Truth of "a need not be moved after b": the comparator is nonpositive. -/
def postLe (sortBy sortOrder : String) (a b : Post) : Bool :=
  postCmp sortBy sortOrder a b ≤ 0

/-- Stable insertion of `x` into `l`: `x` is placed before the first element
`y` with `le x y`, hence before every element it ties with. -/
def insertLe (le : α → α → Bool) (x : α) : List α → List α
  | [] => [x]
  | y :: ys => if le x y then x :: y :: ys else y :: insertLe le x ys

/-- Stable sort by the boolean preorder `le`.  For a total, transitive `le`
this is the unique stable sort, hence the result of the ES2019
`Array.prototype.sort` call of the source with the same comparator. -/
def sortStable (le : α → α → Bool) : List α → List α
  | [] => []
  | x :: xs => insertLe le x (sortStable le xs)

/-- The sort stage of `findAll`: the filtered copy sorted by the comparator. -/
def sortedStage (posts : List Post) (q : QueryPostDto) : List Post :=
  sortStable (postLe (q.sortBy.getD "createdAt") (q.sortOrder.getD "DESC"))
    (filterStage posts q)

/-- Resolution of one `Array.prototype.slice` bound against a length. -/
def jsSliceBound (len : Nat) (i : Int) : Nat :=
  if i < 0 then (len + i).toNat else min i.toNat len

/-- JavaScript `Array.prototype.slice(start, stop)`. -/
def jsSlice (l : List α) (start stop : Int) : List α :=
  (l.take (jsSliceBound l.length stop)).drop (jsSliceBound l.length start)

/-- JavaScript `Math.ceil(a / b)` for integer `a` and positive integer `b`; `/` is
Euclidean division, which is floor division for a positive divisor. -/
def mathCeilDiv (a b : Int) : Int := -((-a) / b)

/-- The `PostListResponseDto` projection (post-response.dto.ts): the list projection of a
post, excluding `content` and `updatedAt`. -/
structure PostListResponseDto where
  id : Int
  title : String
  summary : String
  authorId : Int
  categoryId : Int
  tags : String
  status : Int
  viewCount : Int
  likeCount : Int
  coverImage : String
  isTop : Bool
  createdAt : Int
  publishedAt : Option Int
deriving DecidableEq, Repr

/-- The `PostListResponseDto` constructor applied to a post. -/
def PostListResponseDto.ofPost (p : Post) : PostListResponseDto :=
  { id := p.id, title := p.title, summary := p.summary, authorId := p.authorId,
    categoryId := p.categoryId, tags := p.tags, status := p.status,
    viewCount := p.viewCount, likeCount := p.likeCount,
    coverImage := p.coverImage, isTop := p.isTop, createdAt := p.createdAt,
    publishedAt := p.publishedAt }

/-- The `PostPageResponseDto` structure (post-response.dto.ts). -/
structure PostPageResponseDto where
  list : List PostListResponseDto
  total : Int
  page : Int
  pageSize : Int
  totalPages : Int
deriving DecidableEq, Repr

/-- The `PostPageResponseDto` constructor: stores its arguments and computes
`totalPages = Math.ceil(total / pageSize)`. -/
def PostPageResponseDto.make (list : List PostListResponseDto)
    (total page pageSize : Int) : PostPageResponseDto :=
  { list := list, total := total, page := page, pageSize := pageSize,
    totalPages := mathCeilDiv total pageSize }

/-- The body of `PostService.findAll` (post.service.ts lines 50-121), run on a
query object that already passed validation: default substitution, filter
stage, sort stage, pagination by `slice`, projection to list DTOs, and the
page-response constructor. -/
def findAllBody (posts : List Post) (q : QueryPostDto) : PostPageResponseDto :=
  let page := q.page.getD 1
  let pageSize := q.pageSize.getD 10
  let sortBy := q.sortBy.getD "createdAt"
  let sortOrder := q.sortOrder.getD "DESC"
  let filteredPosts := filterStage posts q
  let sortedPosts := sortStable (postLe sortBy sortOrder) filteredPosts
  let total := sortedPosts.length
  let start := (page - 1) * pageSize
  let stop := start + pageSize
  let paginatedPosts := jsSlice sortedPosts start stop
  let list := paginatedPosts.map PostListResponseDto.ofPost
  PostPageResponseDto.make list (total : Int) page pageSize

/-- The `GET /post` operation: the validation pipe applied to the decoded
query object, then `PostService.findAll`. -/
def findAll (posts : List Post) (q : QueryPostDto) :
    Except ServiceError PostPageResponseDto :=
  if validateQueryPostDto q then .ok (findAllBody posts q)
  else .error .invalidQuery

/-- The method `PostService.findOne` (post.service.ts lines 126-136) as a state-passing
function: `this.posts.find` locates the first record whose id matches, its
`viewCount` is incremented in place, and the record is returned; a missing id
throws `NotFoundException`.  The second component is the collection after the
call. -/
def findOne : List Post → Int → Except ServiceError (Post × List Post)
  | [], _ => .error .notFound
  | p :: ps, id =>
    if p.id == id then
      let p' := { p with viewCount := p.viewCount + 1 }
      .ok (p', p' :: ps)
    else
      match findOne ps id with
      | .error e => .error e
      | .ok (q, ps') => .ok (q, p :: ps')

/-- In-place mutation of the first record with the given id (the object
aliasing of `const post = this.findOne(id)` followed by field assignments). -/
def updateFirstById (f : Post → Post) : List Post → Int → List Post
  | [], _ => []
  | p :: ps, id => if p.id == id then f p :: ps else p :: updateFirstById f ps id

/-- The `UpdatePostDto` structure (update-post.dto.ts): every `CreatePostDto` field made
optional. -/
structure UpdatePostDto where
  title : Option String
  content : Option String
  summary : Option String
  authorId : Option Int
  categoryId : Option Int
  tags : Option String
  status : Option Int
  coverImage : Option String
  isTop : Option Bool
deriving DecidableEq, Repr

/-- The mutations `PostService.update` performs on the record returned by
`findOne`: `Object.assign(post, updatePostDto)`, `post.updatedAt = new
Date()`, and `publishedAt` set when the status becomes 1 on an unpublished
post. -/
def applyUpdate (p : Post) (u : UpdatePostDto) (now : Int) : Post :=
  let p :=
    { p with
      title := u.title.getD p.title
      content := u.content.getD p.content
      summary := u.summary.getD p.summary
      authorId := u.authorId.getD p.authorId
      categoryId := u.categoryId.getD p.categoryId
      tags := u.tags.getD p.tags
      status := u.status.getD p.status
      coverImage := u.coverImage.getD p.coverImage
      isTop := u.isTop.getD p.isTop }
  let p := { p with updatedAt := now }
  if u.status == some 1 && p.publishedAt == none then
    { p with publishedAt := some now }
  else p

/-- The method `PostService.update` (post.service.ts lines 141-154) as a state-passing
function. -/
def update (posts : List Post) (id : Int) (u : UpdatePostDto) (now : Int) :
    Except ServiceError (Post × List Post) :=
  match findOne posts id with
  | .error e => .error e
  | .ok (p, posts') =>
    let p' := applyUpdate p u now
    .ok (p', updateFirstById (fun _ => p') posts' id)

/-- The method `PostService.remove` (post.service.ts lines 159-163): resolve the record
through `findOne`, then set `status = 2` and refresh `updatedAt`. -/
def remove (posts : List Post) (id : Int) (now : Int) :
    Except ServiceError (List Post) :=
  match findOne posts id with
  | .error e => .error e
  | .ok (_, posts') =>
    .ok (updateFirstById (fun p => { p with status := 2, updatedAt := now })
      posts' id)

/-- The mutable state owned by `PostService`. -/
structure PostServiceState where
  posts : List Post
  idCounter : Int
deriving DecidableEq, Repr

/-- The method `findAll` as a transformer of the service state.  The source spreads
`this.posts` into a fresh array before filtering, and the mutating
`Array.prototype.sort` runs on that copy, so the stored array is never
written; the embedding mirrors this by returning the state unchanged. -/
def findAllM (q : QueryPostDto) (s : PostServiceState) :
    Except ServiceError PostPageResponseDto × PostServiceState :=
  (findAll s.posts q, s)

/-- The conjunctive filter predicate of the spec: a record is retained exactly
when every supplied filter accepts it — keyword a case-sensitive substring of
the title, and `categoryId`, `authorId`, `status`, `isTop` equal to the
supplied values; an absent filter imposes no constraint. -/
def postMatches (q : QueryPostDto) (p : Post) : Bool :=
  (match q.isTop with
   | some t => p.isTop == t
   | none => true) &&
  (match q.status with
   | some s => p.status == s
   | none => true) &&
  (match q.authorId with
   | some a => p.authorId == a
   | none => true) &&
  (match q.categoryId with
   | some c => p.categoryId == c
   | none => true) &&
  (match q.keyword with
   | some k => strIncludes p.title k
   | none => true)

/-! ### Basic lemmas about the embedded operations -/

theorem strIncludes_empty (s : String) : strIncludes s "" = true := by
  unfold strIncludes
  cases s.data with
  | nil => rfl
  | cons h t => rfl

theorem filterStage_eq_filter (posts : List Post) (q : QueryPostDto) :
    filterStage posts q = posts.filter (fun p => postMatches q p) := by
  unfold filterStage postMatches
  rcases q with ⟨page, pageSize, keyword, categoryId, authorId, status, sortBy, sortOrder, isTop⟩
  dsimp only
  rcases keyword with _ | k
  · rcases categoryId with _ | c <;> rcases authorId with _ | a <;>
      rcases status with _ | s <;> rcases isTop with _ | t <;>
      simp [List.filter_filter, Bool.and_assoc]
  · by_cases hk : k = "" <;>
      rcases categoryId with _ | c <;> rcases authorId with _ | a <;>
        rcases status with _ | s <;> rcases isTop with _ | t <;>
        simp [List.filter_filter, hk, strIncludes_empty, Bool.and_assoc]

theorem length_insertLe (le : α → α → Bool) (x : α) (l : List α) :
    (insertLe le x l).length = l.length + 1 := by
  induction l with
  | nil => rfl
  | cons y ys ih =>
    unfold insertLe
    by_cases h : le x y = true
    · simp [h]
    · simp [h, ih]

theorem length_sortStable (le : α → α → Bool) (l : List α) :
    (sortStable le l).length = l.length := by
  induction l with
  | nil => rfl
  | cons x xs ih => rw [sortStable, length_insertLe, ih, List.length_cons]

theorem mem_insertLe (le : α → α → Bool) (x a : α) (l : List α) :
    a ∈ insertLe le x l ↔ a = x ∨ a ∈ l := by
  induction l with
  | nil => simp [insertLe]
  | cons y ys ih =>
    unfold insertLe
    by_cases h : le x y = true
    · simp [h]
    · simp [h, ih]
      tauto

theorem mem_sortStable (le : α → α → Bool) (a : α) (l : List α) :
    a ∈ sortStable le l ↔ a ∈ l := by
  induction l with
  | nil => exact Iff.rfl
  | cons x xs ih => unfold sortStable; rw [mem_insertLe]; simp [ih]

theorem insertLe_spec (le : α → α → Bool) (x : α) (l : List α) :
    ∃ l₁ l₂, insertLe le x l = l₁ ++ x :: l₂ ∧ l = l₁ ++ l₂ ∧
      ∀ y ∈ l₁, le x y = false := by
  induction l with
  | nil => exact ⟨[], [], rfl, rfl, by simp⟩
  | cons y ys ih =>
    by_cases h : le x y = true
    · exact ⟨[], y :: ys, by simp [insertLe, h], rfl, by simp⟩
    · obtain ⟨l₁, l₂, h1, h2, h3⟩ := ih
      refine ⟨y :: l₁, l₂, ?_, by simp [h2], ?_⟩
      · simp [insertLe, h, h1]
      · intro z hz
        rcases List.mem_cons.mp hz with rfl | hz
        · exact Bool.eq_false_iff.mpr h
        · exact h3 z hz

theorem sublist_insertLe (le : α → α → Bool) (x : α) {c l : List α}
    (h : List.Sublist c l) : List.Sublist c (insertLe le x l) := by
  obtain ⟨l₁, l₂, h1, h2, -⟩ := insertLe_spec le x l
  rw [h1]
  rw [h2] at h
  exact h.trans ((List.sublist_cons_self x l₂).append_left l₁)

theorem pair_sublist_sortStable (le : α → α → Bool) {a b : α} {l : List α}
    (hab : le a b = true) (h : List.Sublist [a, b] l) :
    List.Sublist [a, b] (sortStable le l) := by
  induction l with
  | nil => simp at h
  | cons c cs ih =>
    rw [sortStable]
    cases h with
    | cons _ h' => exact sublist_insertLe le c (ih h')
    | cons₂ _ h' =>
      have hb : b ∈ sortStable le cs :=
        (mem_sortStable le b cs).mpr (List.singleton_sublist.mp h')
      obtain ⟨l₁, l₂, h1, h2, h3⟩ := insertLe_spec le a (sortStable le cs)
      rw [h1]
      have hb2 : b ∈ l₂ := by
        rw [h2] at hb
        rcases List.mem_append.mp hb with h4 | h4
        · exact absurd hab (by simp [h3 b h4])
        · exact h4
      exact List.sublist_append_of_sublist_right
        ((List.singleton_sublist.mpr hb2).cons₂ a)

theorem jsSliceBound_le (len : Nat) (i : Int) : jsSliceBound len i ≤ len := by
  unfold jsSliceBound; split <;> omega

theorem length_jsSlice (l : List α) (s e : Int) :
    (jsSlice l s e).length = jsSliceBound l.length e - jsSliceBound l.length s := by
  unfold jsSlice
  rw [List.length_drop, List.length_take]
  have := jsSliceBound_le l.length e
  omega

theorem jsSlice_sublist (l : List α) (s e : Int) : List.Sublist (jsSlice l s e) l :=
  (List.drop_sublist _ _).trans (List.take_sublist _ _)

theorem findAllBody_list (posts : List Post) (q : QueryPostDto) :
    (findAllBody posts q).list =
      (jsSlice (sortedStage posts q)
        ((q.page.getD 1 - 1) * q.pageSize.getD 10)
        ((q.page.getD 1 - 1) * q.pageSize.getD 10 + q.pageSize.getD 10)).map
        PostListResponseDto.ofPost := rfl

theorem findAllBody_total (posts : List Post) (q : QueryPostDto) :
    (findAllBody posts q).total = ((sortedStage posts q).length : Int) := rfl

theorem findAllBody_page (posts : List Post) (q : QueryPostDto) :
    (findAllBody posts q).page = q.page.getD 1 := rfl

theorem findAllBody_pageSize (posts : List Post) (q : QueryPostDto) :
    (findAllBody posts q).pageSize = q.pageSize.getD 10 := rfl

theorem findAllBody_totalPages (posts : List Post) (q : QueryPostDto) :
    (findAllBody posts q).totalPages =
      mathCeilDiv ((sortedStage posts q).length : Int) (q.pageSize.getD 10) := rfl

theorem length_sortedStage (posts : List Post) (q : QueryPostDto) :
    (sortedStage posts q).length =
      (posts.filter (fun p => postMatches q p)).length := by
  unfold sortedStage
  rw [length_sortStable, filterStage_eq_filter]

theorem le_mathCeilDiv_mul (a b : Int) (hb : 0 < b) : a ≤ mathCeilDiv a b * b := by
  have h1 := Int.ediv_add_emod (-a) b
  have h2 := Int.emod_nonneg (-a) (by omega : b ≠ 0)
  unfold mathCeilDiv
  nlinarith [h1, h2]

theorem mathCeilDiv_mul_lt (a b : Int) (hb : 0 < b) :
    (mathCeilDiv a b - 1) * b < a := by
  have h1 := Int.ediv_add_emod (-a) b
  have h2 := Int.emod_lt_of_pos (-a) hb
  unfold mathCeilDiv
  nlinarith [h1, h2]

theorem mathCeilDiv_eq_ceil (a b : Int) (hb : 0 < b) :
    mathCeilDiv a b = ⌈(a : ℚ) / (b : ℚ)⌉ := by
  symm
  rw [Int.ceil_eq_iff]
  have hb' : (0 : ℚ) < (b : ℚ) := by exact_mod_cast hb
  constructor
  · rw [show ((mathCeilDiv a b : Int) : ℚ) - 1 = ((mathCeilDiv a b - 1 : Int) : ℚ) by
      push_cast; ring]
    rw [lt_div_iff₀ hb']
    exact_mod_cast mathCeilDiv_mul_lt a b hb
  · rw [div_le_iff₀ hb']
    exact_mod_cast le_mathCeilDiv_mul a b hb

theorem mathCeilDiv_eq_zero_iff (a b : Int) (ha : 0 ≤ a) (hb : 0 < b) :
    mathCeilDiv a b = 0 ↔ a = 0 := by
  constructor
  · intro h
    have h1 := le_mathCeilDiv_mul a b hb
    rw [h] at h1
    simp at h1
    omega
  · intro h
    subst h
    unfold mathCeilDiv
    simp

theorem validate_bounds {q : QueryPostDto} (h : validateQueryPostDto q = true) :
    1 ≤ q.page.getD 1 ∧ 1 ≤ q.pageSize.getD 10 ∧ q.pageSize.getD 10 ≤ 100 := by
  unfold validateQueryPostDto at h
  simp only [Bool.and_eq_true] at h
  obtain ⟨⟨⟨⟨hp, hs⟩, -⟩, -⟩, -⟩ := h
  constructor
  · rcases hq : q.page with _ | p
    · simp
    · rw [hq] at hp
      simp at hp ⊢
      omega
  constructor
  · rcases hq : q.pageSize with _ | s
    · simp
    · rw [hq] at hs
      simp at hs ⊢
      omega
  · rcases hq : q.pageSize with _ | s
    · simp
    · rw [hq] at hs
      simp at hs ⊢
      omega

theorem findAll_eq_ok_iff {posts : List Post} {q : QueryPostDto}
    {res : PostPageResponseDto} :
    findAll posts q = .ok res ↔
      validateQueryPostDto q = true ∧ res = findAllBody posts q := by
  unfold findAll
  by_cases h : validateQueryPostDto q = true <;> simp [h, eq_comm]

theorem findAll_eq_error_iff {posts : List Post} {q : QueryPostDto}
    {e : ServiceError} :
    findAll posts q = .error e ↔
      validateQueryPostDto q = false ∧ e = ServiceError.invalidQuery := by
  unfold findAll
  by_cases h : validateQueryPostDto q = true <;> simp [h, eq_comm]

theorem postLe_iff (sb so : String) (a b : Post) :
    postLe sb so a b = true ↔
      (if so == "ASC" then sortValue sb a ≤ sortValue sb b
       else sortValue sb b ≤ sortValue sb a) := by
  unfold postLe postCmp
  by_cases h : so == "ASC" <;>
    simp only [h, if_true, if_false, decide_eq_true_eq] <;>
    split_ifs <;> omega

theorem findOne_append (l₁ : List Post) (p : Post) (l₂ : List Post) (id : Int)
    (hl₁ : ∀ q ∈ l₁, q.id ≠ id) (hp : p.id = id) :
    findOne (l₁ ++ p :: l₂) id =
      .ok ({ p with viewCount := p.viewCount + 1 },
           l₁ ++ { p with viewCount := p.viewCount + 1 } :: l₂) := by
  induction l₁ with
  | nil => simp [findOne, hp]
  | cons a l ih =>
    have hne : (a.id == id) = false := by
      simp [hl₁ a (List.mem_cons_self a l)]
    have ih' := ih (fun q hq => hl₁ q (List.mem_cons_of_mem a hq))
    simp [findOne, hne, ih']

theorem findOne_cases (posts : List Post) (id : Int) :
    (findOne posts id = .error ServiceError.notFound ∧ ∀ p ∈ posts, p.id ≠ id) ∨
    (∃ l₁ p₀ l₂, posts = l₁ ++ p₀ :: l₂ ∧ (∀ q ∈ l₁, q.id ≠ id) ∧ p₀.id = id ∧
      findOne posts id =
        .ok ({ p₀ with viewCount := p₀.viewCount + 1 },
             l₁ ++ { p₀ with viewCount := p₀.viewCount + 1 } :: l₂)) := by
  induction posts with
  | nil => left; exact ⟨rfl, by simp⟩
  | cons p ps ih =>
    by_cases h : p.id = id
    · right
      refine ⟨[], p, ps, rfl, by simp, h, ?_⟩
      exact findOne_append [] p ps id (by simp) h
    · rcases ih with ⟨he, hall⟩ | ⟨l₁, p₀, l₂, h1, h2, h3, h4⟩
      · left
        refine ⟨?_, ?_⟩
        · have hne : (p.id == id) = false := by simp [h]
          simp [findOne, hne, he]
        · intro q hq
          rcases List.mem_cons.mp hq with rfl | hq
          · exact h
          · exact hall q hq
      · right
        refine ⟨p :: l₁, p₀, l₂, by simp [h1], ?_, h3, ?_⟩
        · intro q hq
          rcases List.mem_cons.mp hq with rfl | hq
          · exact h
          · exact h2 q hq
        · rw [h1]
          exact findOne_append (p :: l₁) p₀ l₂ id
            (fun q hq => by
              rcases List.mem_cons.mp hq with rfl | hq
              · exact h
              · exact h2 q hq) h3

theorem updateFirstById_append (f : Post → Post) (l₁ : List Post) (p : Post)
    (l₂ : List Post) (id : Int)
    (hl₁ : ∀ q ∈ l₁, q.id ≠ id) (hp : p.id = id) :
    updateFirstById f (l₁ ++ p :: l₂) id = l₁ ++ f p :: l₂ := by
  induction l₁ with
  | nil => simp [updateFirstById, hp]
  | cons a l ih =>
    have hne : (a.id == id) = false := by
      simp [hl₁ a (List.mem_cons_self a l)]
    have ih' := ih (fun q hq => hl₁ q (List.mem_cons_of_mem a hq))
    simp [updateFirstById, hne, ih']

theorem applyUpdate_viewCount (p : Post) (u : UpdatePostDto) (now : Int) :
    (applyUpdate p u now).viewCount = p.viewCount := by
  unfold applyUpdate
  dsimp only
  split <;> rfl

theorem applyUpdate_id (p : Post) (u : UpdatePostDto) (now : Int) :
    (applyUpdate p u now).id = p.id := by
  unfold applyUpdate
  dsimp only
  split <;> rfl

/-! ### Sample data used by the witnesses -/

/-- A sample stored post. -/
def samplePost : Post :=
  { id := 1, title := "Hello NestJS", content := "content body",
    summary := "summary", authorId := 7, categoryId := 3, tags := "a,b",
    status := 1, viewCount := 5, likeCount := 2, coverImage := "",
    isTop := false, createdAt := 100, updatedAt := 100,
    publishedAt := some 100 }

/-- A second sample post with the same `createdAt` as `samplePost`. -/
def samplePost2 : Post :=
  { id := 2, title := "Second post", content := "more content",
    summary := "s2", authorId := 8, categoryId := 3, tags := "",
    status := 0, viewCount := 9, likeCount := 4, coverImage := "",
    isTop := true, createdAt := 100, updatedAt := 150,
    publishedAt := none }

/-- A query whose only supplied field is `status = 3`, which violates the
`Max(2)` constraint on `status` while satisfying every pagination and sort
constraint of the claim. -/
def statusThreeQuery : QueryPostDto := { emptyQuery with status := some 3 }

/-- A query asking for page 5 of a one-record collection. -/
def pageFiveQuery : QueryPostDto := { emptyQuery with page := some 5 }

/-- A query whose only supplied field is `page = 0`. -/
def pageZeroQuery : QueryPostDto := { emptyQuery with page := some 0 }

/-! ### Claim theorems -/

/-- C1: a record appears in the returned page's item list of `findAll`, or
is counted in its `total`, only if it satisfies every active filter
conjunctively: a supplied keyword is a case-sensitive substring of the title,
and supplied `categoryId`, `authorId`, `status`, `isTop` equal the record's
fields; an absent filter imposes no constraint.  (`total` is exactly the count
of records satisfying all active filters.) -/
theorem findAll_conjunctive_filtering (posts : List Post) (q : QueryPostDto)
    (res : PostPageResponseDto) (h : findAll posts q = .ok res) :
    (∀ d ∈ res.list, ∃ p, p ∈ posts ∧ postMatches q p = true ∧
        d = PostListResponseDto.ofPost p) ∧
    res.total = ((posts.filter (fun p => postMatches q p)).length : Int) := by
  obtain ⟨hv, rfl⟩ := findAll_eq_ok_iff.mp h
  constructor
  · rw [findAllBody_list]
    intro d hd
    obtain ⟨p, hp, rfl⟩ := List.mem_map.mp hd
    have hmem : p ∈ sortedStage posts q := (jsSlice_sublist _ _ _).subset hp
    have hmem2 : p ∈ filterStage posts q := by
      unfold sortedStage at hmem
      exact (mem_sortStable _ _ _).mp hmem
    rw [filterStage_eq_filter] at hmem2
    obtain ⟨hmem3, hmatch⟩ := List.mem_filter.mp hmem2
    exact ⟨p, hmem3, hmatch, rfl⟩
  · rw [findAllBody_total, length_sortedStage]

/-- Witness for C1 at a concrete collection and query. -/
theorem findAll_conjunctive_filtering_witness :
    (∀ d ∈ (findAllBody [samplePost, samplePost2] emptyQuery).list,
      ∃ p, p ∈ [samplePost, samplePost2] ∧ postMatches emptyQuery p = true ∧
        d = PostListResponseDto.ofPost p) ∧
    (findAllBody [samplePost, samplePost2] emptyQuery).total =
      (([samplePost, samplePost2].filter
        (fun p => postMatches emptyQuery p)).length : Int) :=
  findAll_conjunctive_filtering [samplePost, samplePost2] emptyQuery _ rfl

/-- C2: for every page returned by `findAll`, the number of items is
`min(pageSize, max(0, total - (page-1)*pageSize))`; in particular it never
exceeds `pageSize`.  (`page ≥ 1` and `pageSize ≥ 1` hold for every query that
reaches the engine, by validation.) -/
theorem findAll_page_size_bound (posts : List Post) (q : QueryPostDto)
    (res : PostPageResponseDto) (h : findAll posts q = .ok res) :
    (res.list.length : Int) =
      min (q.pageSize.getD 10)
        (max 0 (res.total - (q.page.getD 1 - 1) * q.pageSize.getD 10)) ∧
    (res.list.length : Int) ≤ q.pageSize.getD 10 := by
  obtain ⟨hv, rfl⟩ := findAll_eq_ok_iff.mp h
  obtain ⟨hp, hs1, hs2⟩ := validate_bounds hv
  rw [findAllBody_list, findAllBody_total, List.length_map, length_jsSlice]
  have hstart : 0 ≤ (q.page.getD 1 - 1) * q.pageSize.getD 10 :=
    mul_nonneg (by omega) (by omega)
  set L := (sortedStage posts q).length with hL
  set ps := q.pageSize.getD 10 with hps
  set S := (q.page.getD 1 - 1) * ps with hS
  have h1 : jsSliceBound L (S + ps) = min (S + ps).toNat L := by
    unfold jsSliceBound
    rw [if_neg (by omega)]
  have h2 : jsSliceBound L S = min S.toNat L := by
    unfold jsSliceBound
    rw [if_neg (by omega)]
  rw [h1, h2]
  constructor <;> omega

/-- Witness for C2 at a concrete collection and query. -/
theorem findAll_page_size_bound_witness :
    ((findAllBody [samplePost, samplePost2] emptyQuery).list.length : Int) =
      min (emptyQuery.pageSize.getD 10)
        (max 0 ((findAllBody [samplePost, samplePost2] emptyQuery).total -
          (emptyQuery.page.getD 1 - 1) * emptyQuery.pageSize.getD 10)) ∧
    ((findAllBody [samplePost, samplePost2] emptyQuery).list.length : Int) ≤
      emptyQuery.pageSize.getD 10 :=
  findAll_page_size_bound [samplePost, samplePost2] emptyQuery _ rfl

/-- C5: every result of `findAll` has
`totalPages = ⌈total / pageSize⌉` (rational ceiling), and `totalPages = 0`
exactly when `total = 0`. -/
theorem findAll_totalPages_formula (posts : List Post) (q : QueryPostDto)
    (res : PostPageResponseDto) (h : findAll posts q = .ok res) :
    res.totalPages = ⌈(res.total : ℚ) / (res.pageSize : ℚ)⌉ ∧
    (res.totalPages = 0 ↔ res.total = 0) := by
  obtain ⟨hv, rfl⟩ := findAll_eq_ok_iff.mp h
  obtain ⟨hp, hs1, hs2⟩ := validate_bounds hv
  rw [findAllBody_totalPages, findAllBody_total, findAllBody_pageSize]
  have hps : 0 < q.pageSize.getD 10 := by omega
  refine ⟨?_, mathCeilDiv_eq_zero_iff _ _ (Int.natCast_nonneg _) hps⟩
  rw [mathCeilDiv_eq_ceil _ _ hps]

/-- Witness for C5 at a concrete collection and query. -/
theorem findAll_totalPages_formula_witness :
    (findAllBody [samplePost, samplePost2] emptyQuery).totalPages =
      ⌈((findAllBody [samplePost, samplePost2] emptyQuery).total : ℚ) /
        ((findAllBody [samplePost, samplePost2] emptyQuery).pageSize : ℚ)⌉ ∧
    ((findAllBody [samplePost, samplePost2] emptyQuery).totalPages = 0 ↔
      (findAllBody [samplePost, samplePost2] emptyQuery).total = 0) :=
  findAll_totalPages_formula [samplePost, samplePost2] emptyQuery _ rfl

theorem validate_eq_true_iff (q : QueryPostDto) :
    validateQueryPostDto q = true ↔
      ((∀ p, q.page = some p → 1 ≤ p) ∧
       (∀ s, q.pageSize = some s → 1 ≤ s ∧ s ≤ 100) ∧
       (∀ st, q.status = some st → 0 ≤ st ∧ st ≤ 2) ∧
       (∀ f, q.sortBy = some f → f ∈ validSortFields) ∧
       (∀ o, q.sortOrder = some o → o = "ASC" ∨ o = "DESC")) := by
  unfold validateQueryPostDto
  rcases q with ⟨page, pageSize, kw, cid, aid, status, sortBy, sortOrder, isTop⟩
  dsimp only
  rcases page with _ | p <;> rcases pageSize with _ | s <;>
    rcases status with _ | st <;> rcases sortBy with _ | f <;>
    rcases sortOrder with _ | o <;>
    simp [List.contains, and_assoc]

theorem validate_eq_false_iff (q : QueryPostDto) :
    validateQueryPostDto q = false ↔
      ((∃ p, q.page = some p ∧ p < 1) ∨
       (∃ s, q.pageSize = some s ∧ (s < 1 ∨ 100 < s)) ∨
       (∃ st, q.status = some st ∧ (st < 0 ∨ 2 < st)) ∨
       (∃ f, q.sortBy = some f ∧ f ∉ validSortFields) ∨
       (∃ o, q.sortOrder = some o ∧ o ≠ "ASC" ∧ o ≠ "DESC")) := by
  rw [Bool.eq_false_iff, Ne, validate_eq_true_iff]
  simp only [not_and_or, not_forall, Classical.not_imp, not_le, not_or,
    exists_prop, ne_eq]

/-- C3 (counterexample): the claim says `findAll` raises `InvalidQuery`
exactly when `page < 1`, `pageSize < 1`, `pageSize > 100`, or the sort field
is outside the sortable set, with no other failure mode.  The query supplying
only `status = 3` satisfies all four of those conditions' negations (its page,
pageSize and sort field take their in-range defaults), yet `findAll` raises
`InvalidQuery`, because the validation layer also enforces `0 ≤ status ≤ 2`. -/
theorem findAll_invalidQuery_counterexample :
    findAll [] statusThreeQuery = .error ServiceError.invalidQuery ∧
    1 ≤ statusThreeQuery.page.getD 1 ∧
    1 ≤ statusThreeQuery.pageSize.getD 10 ∧
    statusThreeQuery.pageSize.getD 10 ≤ 100 ∧
    statusThreeQuery.sortBy.getD "createdAt" ∈ validSortFields := by
  refine ⟨rfl, by decide, by decide, by decide, by decide⟩

/-- C3 (amended): `findAll` raises `InvalidQuery` exactly when a supplied
`page` is < 1, a supplied `pageSize` is < 1 or > 100, a supplied `status` is
outside 0..2, a supplied sort field is not in the enumerated sortable set, or
a supplied sort direction is neither ASC nor DESC; it has no other failure
mode, and a spec with `page = 0` always raises `InvalidQuery` rather than
returning a page. -/
theorem findAll_failure_semantics (posts : List Post) (q : QueryPostDto) :
    ((∃ e, findAll posts q = .error e) ↔
      ((∃ p, q.page = some p ∧ p < 1) ∨
       (∃ s, q.pageSize = some s ∧ (s < 1 ∨ 100 < s)) ∨
       (∃ st, q.status = some st ∧ (st < 0 ∨ 2 < st)) ∨
       (∃ f, q.sortBy = some f ∧ f ∉ validSortFields) ∨
       (∃ o, q.sortOrder = some o ∧ o ≠ "ASC" ∧ o ≠ "DESC"))) ∧
    (∀ e, findAll posts q = .error e → e = ServiceError.invalidQuery) ∧
    (q.page = some 0 → findAll posts q = .error ServiceError.invalidQuery) := by
  refine ⟨?_, ?_, ?_⟩
  · rw [← validate_eq_false_iff]
    constructor
    · rintro ⟨e, he⟩
      exact (findAll_eq_error_iff.mp he).1
    · intro hfalse
      exact ⟨ServiceError.invalidQuery, findAll_eq_error_iff.mpr ⟨hfalse, rfl⟩⟩
  · intro e he
    exact (findAll_eq_error_iff.mp he).2
  · intro hpage
    apply findAll_eq_error_iff.mpr
    refine ⟨?_, rfl⟩
    rw [validate_eq_false_iff]
    exact Or.inl ⟨0, hpage, by omega⟩

/-- Witness for the amended C3: with only `page = 0` supplied, `findAll`
raises `InvalidQuery`. -/
theorem findAll_failure_semantics_witness :
    findAll [] pageZeroQuery = .error ServiceError.invalidQuery :=
  (findAll_failure_semantics [] pageZeroQuery).2.2 rfl

/-- C4: for every valid query whose page exceeds the result's
`totalPages`, `findAll` returns an empty item list (and no error), while
`total` still reports the count of records matching all filters. -/
theorem findAll_out_of_range_page (posts : List Post) (q : QueryPostDto)
    (res : PostPageResponseDto) (h : findAll posts q = .ok res)
    (hover : res.totalPages < res.page) :
    res.list = [] ∧
    res.total = ((posts.filter (fun p => postMatches q p)).length : Int) := by
  obtain ⟨hv, rfl⟩ := findAll_eq_ok_iff.mp h
  obtain ⟨hp, hs1, hs2⟩ := validate_bounds hv
  rw [findAllBody_totalPages, findAllBody_page] at hover
  refine ⟨?_, by rw [findAllBody_total, length_sortedStage]⟩
  rw [findAllBody_list]
  set L := (sortedStage posts q).length with hL
  set ps := q.pageSize.getD 10 with hps
  set pg := q.page.getD 1 with hpg
  have hkey : (L : Int) ≤ (pg - 1) * ps := by
    have h1 := le_mathCeilDiv_mul (L : Int) ps (by omega)
    have h2 : mathCeilDiv (L : Int) ps ≤ pg - 1 := by omega
    calc (L : Int) ≤ mathCeilDiv (L : Int) ps * ps := h1
      _ ≤ (pg - 1) * ps := mul_le_mul_of_nonneg_right h2 (by omega)
  have hstart : 0 ≤ (pg - 1) * ps := mul_nonneg (by omega) (by omega)
  apply List.eq_nil_of_length_eq_zero
  rw [List.length_map, length_jsSlice]
  set S := (pg - 1) * ps with hS
  have h1 : jsSliceBound L (S + ps) = min (S + ps).toNat L := by
    unfold jsSliceBound
    rw [if_neg (by omega)]
  have h2 : jsSliceBound L S = min S.toNat L := by
    unfold jsSliceBound
    rw [if_neg (by omega)]
  rw [h1, h2]
  omega

/-- Witness for C4: page 5 of a one-record collection is empty while `total`
is still 1. -/
theorem findAll_out_of_range_page_witness :
    (findAllBody [samplePost] pageFiveQuery).list = [] ∧
    (findAllBody [samplePost] pageFiveQuery).total =
      (([samplePost].filter (fun p => postMatches pageFiveQuery p)).length : Int) :=
  findAll_out_of_range_page [samplePost] pageFiveQuery _ rfl (by decide)

/-- C6: the sort stage is stable: two records that agree on the active
sort field keep, in the sorted sequence, the relative order they had in the
pre-sort filtered sequence — for every sort direction — and the returned item
list is an order-preserving contiguous window of that sorted sequence. -/
theorem findAll_sort_stable (posts : List Post) (q : QueryPostDto)
    (a b : Post) (res : PostPageResponseDto)
    (h : findAll posts q = .ok res)
    (hsub : List.Sublist [a, b] (filterStage posts q))
    (hkey : sortValue (q.sortBy.getD "createdAt") a =
            sortValue (q.sortBy.getD "createdAt") b) :
    List.Sublist [a, b] (sortedStage posts q) ∧
    res.list = (jsSlice (sortedStage posts q)
        ((q.page.getD 1 - 1) * q.pageSize.getD 10)
        ((q.page.getD 1 - 1) * q.pageSize.getD 10 + q.pageSize.getD 10)).map
      PostListResponseDto.ofPost := by
  obtain ⟨hv, rfl⟩ := findAll_eq_ok_iff.mp h
  refine ⟨?_, findAllBody_list posts q⟩
  unfold sortedStage
  apply pair_sublist_sortStable _ _ hsub
  rw [postLe_iff]
  split_ifs <;> omega

/-- Witness for C6: two posts sharing `createdAt` keep their stored order
through the default descending `createdAt` sort. -/
theorem findAll_sort_stable_witness :
    List.Sublist [samplePost, samplePost2]
      (sortedStage [samplePost, samplePost2] emptyQuery) ∧
    (findAllBody [samplePost, samplePost2] emptyQuery).list =
      (jsSlice (sortedStage [samplePost, samplePost2] emptyQuery)
        ((emptyQuery.page.getD 1 - 1) * emptyQuery.pageSize.getD 10)
        ((emptyQuery.page.getD 1 - 1) * emptyQuery.pageSize.getD 10 +
          emptyQuery.pageSize.getD 10)).map PostListResponseDto.ofPost :=
  findAll_sort_stable [samplePost, samplePost2] emptyQuery samplePost
    samplePost2 _ rfl (List.Sublist.refl _) (by decide)

/-- C7: `findOne` fails with `NotFound` exactly when no stored record has
the requested id; on a present id it increments that record's `viewCount` by
exactly 1, returns that record, and leaves every other record (and the
collection's length and order) unchanged. -/
theorem findOne_contract (posts : List Post) (id : Int) :
    (findOne posts id = .error ServiceError.notFound ↔ ∀ p ∈ posts, p.id ≠ id) ∧
    (∀ p posts', findOne posts id = .ok (p, posts') →
      ∃ l₁ p₀ l₂, posts = l₁ ++ p₀ :: l₂ ∧ p₀.id = id ∧
        p = { p₀ with viewCount := p₀.viewCount + 1 } ∧
        posts' = l₁ ++ p :: l₂) := by
  rcases findOne_cases posts id with ⟨he, hall⟩ | ⟨l₁, p₀, l₂, h1, h2, h3, h4⟩
  · refine ⟨iff_of_true he hall, ?_⟩
    intro p posts' hok
    rw [he] at hok
    cases hok
  · constructor
    · rw [h4]
      constructor
      · intro h5
        cases h5
      · intro hall
        exact absurd h3 (hall p₀ (by rw [h1]; simp))
    · intro p posts' hok
      rw [h4] at hok
      obtain ⟨hp, hps⟩ := Prod.mk.injEq .. ▸ Except.ok.inj hok
      exact ⟨l₁, p₀, l₂, h1, h3, hp.symm, by rw [hps.symm, hp]⟩

/-- Witness for C7: concrete evaluation on a present and an absent id. -/
theorem findOne_contract_witness :
    findOne [samplePost] 2 = .error ServiceError.notFound :=
  (findOne_contract [samplePost] 2).1.mpr (by decide)

/-- C9: `findAll` never mutates the backing collection: the service state
after a call is the state before it — same stored array, same length, every
record unchanged (the sort runs on a spread copy in the source). -/
theorem findAll_no_mutation (q : QueryPostDto) (s : PostServiceState) :
    (findAllM q s).2 = s ∧ (findAllM q s).2.posts = s.posts ∧
    (findAllM q s).2.posts.length = s.posts.length :=
  ⟨rfl, rfl, rfl⟩

/-- C8: soft-deleting a present id does not shrink the collection; the
record is still found by a subsequent lookup on the id, its `status` is the
terminal withdrawn value 2, its `updatedAt` is the deletion time, and the
status filter of `findAll` treats it as withdrawn (it matches a status filter
exactly for status value 2). -/
theorem remove_soft_delete (posts : List Post) (id now : Int)
    (h : ∃ p ∈ posts, p.id = id) :
    ∃ posts', remove posts id now = .ok posts' ∧
      posts'.length = posts.length ∧
      ∃ q rest, findOne posts' id = .ok (q, rest) ∧
        q.status = 2 ∧ q.updatedAt = now ∧
        ∀ st : Int,
          postMatches { emptyQuery with status := some st } q = true ↔ st = 2 := by
  rcases findOne_cases posts id with ⟨he, hall⟩ | ⟨l₁, p₀, l₂, h1, h2, h3, h4⟩
  · obtain ⟨p, hp, hpid⟩ := h
    exact absurd hpid (hall p hp)
  · set p₁ : Post := { p₀ with viewCount := p₀.viewCount + 1 } with hp₁
    set p₂ : Post := { p₁ with status := 2, updatedAt := now } with hp₂
    have hrem : remove posts id now = .ok (l₁ ++ p₂ :: l₂) := by
      unfold remove
      rw [h4]
      dsimp only
      rw [updateFirstById_append _ _ p₁ _ _ h2 (show p₁.id = id from h3)]
    refine ⟨l₁ ++ p₂ :: l₂, hrem, by simp [h1], ?_⟩
    have hfind := findOne_append l₁ p₂ l₂ id h2 (show p₂.id = id from h3)
    refine ⟨{ p₂ with viewCount := p₂.viewCount + 1 }, _, hfind, rfl, rfl, ?_⟩
    intro st
    simp [postMatches, emptyQuery]
    exact eq_comm

/-- Witness for C8 at a concrete collection. -/
theorem remove_soft_delete_witness :
    ∃ posts', remove [samplePost] 1 50 = .ok posts' ∧
      posts'.length = [samplePost].length ∧
      ∃ q rest, findOne posts' 1 = .ok (q, rest) ∧
        q.status = 2 ∧ q.updatedAt = 50 ∧
        ∀ st : Int,
          postMatches { emptyQuery with status := some st } q = true ↔ st = 2 :=
  remove_soft_delete [samplePost] 1 50 ⟨samplePost, by decide, by decide⟩

/-- C10: because `update` and `remove` resolve their target through
`findOne`, every successful call additionally increments the target record's
`viewCount` by exactly 1, beyond the documented field changes. -/
theorem update_remove_increment_viewCount (id now : Int) (u : UpdatePostDto)
    (l₁ : List Post) (p₀ : Post) (l₂ : List Post)
    (hl₁ : ∀ q ∈ l₁, q.id ≠ id) (hid : p₀.id = id) :
    (∃ p', update (l₁ ++ p₀ :: l₂) id u now = .ok (p', l₁ ++ p' :: l₂) ∧
       p'.viewCount = p₀.viewCount + 1) ∧
    remove (l₁ ++ p₀ :: l₂) id now =
      .ok (l₁ ++ { p₀ with
                   viewCount := p₀.viewCount + 1
                   status := 2
                   updatedAt := now } :: l₂) := by
  have hfind := findOne_append l₁ p₀ l₂ id hl₁ hid
  set p₁ : Post := { p₀ with viewCount := p₀.viewCount + 1 } with hp₁
  constructor
  · refine ⟨applyUpdate p₁ u now, ?_, ?_⟩
    · unfold update
      rw [hfind]
      dsimp only
      rw [updateFirstById_append _ _ _ _ _ hl₁ (show p₁.id = id from hid)]
    · rw [applyUpdate_viewCount]
  · unfold remove
    rw [hfind]
    dsimp only
    rw [updateFirstById_append _ _ _ _ _ hl₁ (show p₁.id = id from hid)]

/-- Witness for C10 at a concrete collection and update payload. -/
theorem update_remove_increment_viewCount_witness :
    (∃ p', update [samplePost] 1
        { title := some "New title", content := none, summary := none,
          authorId := none, categoryId := none, tags := none,
          status := none, coverImage := none, isTop := none } 60 =
        .ok (p', [] ++ p' :: []) ∧
       p'.viewCount = samplePost.viewCount + 1) ∧
    remove [samplePost] 1 60 =
      .ok ([] ++ { samplePost with
                   viewCount := samplePost.viewCount + 1
                   status := 2
                   updatedAt := 60 } :: []) :=
  update_remove_increment_viewCount 1 60
    { title := some "New title", content := none, summary := none,
      authorId := none, categoryId := none, tags := none,
      status := none, coverImage := none, isTop := none }
    [] samplePost [] (by simp) (by decide)

end NestDemo
